import Mathlib

/-!
Shallow embedding of the truss-frame genetic optimizer
(`tube_frame_analysis/Matthew's Test/frame.py` and `optimizer.py`).

Real-valued program quantities are modelled as rationals (`ℚ`), except
`Frame.calc_mass`, which needs a square root and is modelled over `ℝ`.
Python's `random` calls are modelled by explicit oracle inputs: each call
site receives the value the library call would have produced
(`random.random()` draws are rationals in `[0,1)`; `random.choice` receives
an index; `random.uniform a b` is `a + (b - a) * x` for a draw `x`).
The external PyNite-based analyzer (`fea_solver.analyze_frame`) is a
parameter of type `Frame → Except Unit (ℚ × ℚ × ℚ)`; a raised Python
exception is modelled as `Except.error ()`.
-/

namespace TubeFrame

/-- Young's modulus (Pa), constant `E` from frame.py. -/
def E : ℚ := 210 * 10 ^ 9

/-- Poisson's ratio, constant `nu` from frame.py. -/
def nu : ℚ := 3 / 10

/-- Shear modulus (Pa), constant `G = E / (2 * (1 + nu))` from frame.py. -/
def G : ℚ := E / (2 * (1 + nu))

/-- Material density (kg/m^3), constant `density` from frame.py. -/
def density : ℚ := 7850

/-- Yield strength (Pa), constant `yield_stress` from frame.py,
re-exported by fea_solver.py and imported by optimizer.py. -/
def yield_stress : ℚ := 250 * 10 ^ 6

/-- Allowable vertical deflection of the top node (m), constant
`max_deflection` from fea_solver.py, imported by optimizer.py. -/
def max_deflection : ℚ := 1 / 10

/-- Node coordinate table of a frame: the Python dict
`{"N_left": ..., "N_right": ..., "N_top": ...}` with fixed keys. -/
structure Nodes where
  nLeft : ℚ × ℚ × ℚ
  nRight : ℚ × ℚ × ℚ
  nTop : ℚ × ℚ × ℚ
deriving DecidableEq

/-- The `Frame` class of frame.py: five scalar design variables plus the
derived node table stored by `__init__` (and updated by `mutate`). -/
structure Frame where
  width : ℚ
  height : ℚ
  area_left : ℚ
  area_right : ℚ
  area_base : ℚ
  nodes : Nodes
deriving DecidableEq

/-- Bound `Frame.MIN_WIDTH = 1.0` from frame.py. -/
def Frame.MIN_WIDTH : ℚ := 1

/-- Bound `Frame.MAX_WIDTH = 10.0` from frame.py. -/
def Frame.MAX_WIDTH : ℚ := 10

/-- Bound `Frame.MIN_HEIGHT = 1.0` from frame.py. -/
def Frame.MIN_HEIGHT : ℚ := 1

/-- Bound `Frame.MAX_HEIGHT = 10.0` from frame.py. -/
def Frame.MAX_HEIGHT : ℚ := 10

/-- Bound `Frame.MIN_AREA = 1e-4` from frame.py. -/
def Frame.MIN_AREA : ℚ := 1 / 10 ^ 4

/-- Bound `Frame.MAX_AREA = 1.0` from frame.py. -/
def Frame.MAX_AREA : ℚ := 1

/-- The constructor `Frame.__init__`: stores the five scalars verbatim and
derives the node coordinates of the symmetric triangular layout.  No
validation of any kind is performed in the source. -/
def Frame.make (width height area_left area_right area_base : ℚ) : Frame :=
  { width := width
    height := height
    area_left := area_left
    area_right := area_right
    area_base := area_base
    nodes :=
      { nLeft := (0, 0, 0)
        nRight := (width, 0, 0)
        nTop := (width / 2, height, 0) } }

/-- The fixed member list `Frame.members` from frame.py:
(start node, end node, section name) per member. -/
def Frame.members : List (String × String × String) :=
  [("N_left", "N_top", "LeftSec"),
   ("N_right", "N_top", "RightSec"),
   ("N_left", "N_right", "BaseSec")]

/-- Python's `random.uniform(a, b)`, which returns `a + (b - a) * x` for a
fresh draw `x = random.random()` supplied here explicitly. -/
def uniform (a b x : ℚ) : ℚ := a + (b - a) * x

/-- Oracle for the five `random.uniform` draws consumed by
`Frame.random_frame`, one `random.random()` value per design variable. -/
structure InitRand where
  xw : ℚ
  xh : ℚ
  xl : ℚ
  xr : ℚ
  xb : ℚ
deriving DecidableEq

/-- The static method `Frame.random_frame` from frame.py: each design
variable is drawn by `random.uniform(MIN, MAX)` for its own bounds. -/
def Frame.random_frame (r : InitRand) : Frame :=
  Frame.make
    (uniform Frame.MIN_WIDTH Frame.MAX_WIDTH r.xw)
    (uniform Frame.MIN_HEIGHT Frame.MAX_HEIGHT r.xh)
    (uniform Frame.MIN_AREA Frame.MAX_AREA r.xl)
    (uniform Frame.MIN_AREA Frame.MAX_AREA r.xr)
    (uniform Frame.MIN_AREA Frame.MAX_AREA r.xb)

/-- Python's `max(lo, min(v, hi))` clamp used throughout `Frame.mutate`. -/
def clamp (lo hi v : ℚ) : ℚ := max lo (min v hi)

/-- Oracle for the random draws consumed by one `Frame.mutate` call:
`kw..kb` are the five `random.random()` coin flips compared against the
mutation rate, `uw..ub` the `random.random()` values underlying the five
`random.uniform(-delta, delta)` perturbation draws (a draw is consumed
only if its coin flip succeeds; unused fields are simply ignored). -/
structure MutRand where
  kw : ℚ
  kh : ℚ
  kl : ℚ
  kr : ℚ
  kb : ℚ
  uw : ℚ
  uh : ℚ
  ul : ℚ
  ur : ℚ
  ub : ℚ
deriving DecidableEq

/-- The method `Frame.mutate(mutation_rate)` from frame.py: each design
variable is, with probability `mutation_rate`, perturbed by
`random.uniform(-delta, delta)` where `delta` is 10% of its bound range,
then clamped to its bounds; afterwards the `N_right` and `N_top` node
coordinates are recomputed (the `N_left` entry is left as stored). -/
def Frame.mutate (f : Frame) (mutation_rate : ℚ) (m : MutRand) : Frame :=
  let width :=
    if m.kw < mutation_rate then
      let delta_w := (Frame.MAX_WIDTH - Frame.MIN_WIDTH) * (1 / 10)
      clamp Frame.MIN_WIDTH Frame.MAX_WIDTH (f.width + uniform (-delta_w) delta_w m.uw)
    else f.width
  let height :=
    if m.kh < mutation_rate then
      let delta_h := (Frame.MAX_HEIGHT - Frame.MIN_HEIGHT) * (1 / 10)
      clamp Frame.MIN_HEIGHT Frame.MAX_HEIGHT (f.height + uniform (-delta_h) delta_h m.uh)
    else f.height
  let delta_a := (Frame.MAX_AREA - Frame.MIN_AREA) * (1 / 10)
  let area_left :=
    if m.kl < mutation_rate then
      clamp Frame.MIN_AREA Frame.MAX_AREA (f.area_left + uniform (-delta_a) delta_a m.ul)
    else f.area_left
  let area_right :=
    if m.kr < mutation_rate then
      clamp Frame.MIN_AREA Frame.MAX_AREA (f.area_right + uniform (-delta_a) delta_a m.ur)
    else f.area_right
  let area_base :=
    if m.kb < mutation_rate then
      clamp Frame.MIN_AREA Frame.MAX_AREA (f.area_base + uniform (-delta_a) delta_a m.ub)
    else f.area_base
  { width := width
    height := height
    area_left := area_left
    area_right := area_right
    area_base := area_base
    nodes :=
      { nLeft := f.nodes.nLeft
        nRight := (width, 0, 0)
        nTop := (width / 2, height, 0) } }

/-- The method `Frame.calc_mass` from frame.py: mass is the sum over the
three members of area times length, times the material density.  Modelled
over `ℝ` because of the square root in the leg length. -/
noncomputable def Frame.calc_mass (f : Frame) : ℝ :=
  let left_len := Real.sqrt (((f.width : ℝ) / 2) ^ 2 + (f.height : ℝ) ^ 2)
  let right_len := left_len
  let base_len := (f.width : ℝ)
  ((f.area_left : ℝ) * left_len + (f.area_right : ℝ) * right_len +
    (f.area_base : ℝ) * base_len) * (density : ℝ)

/-- All five scalar design variables lie within their declared closed
bounds from frame.py. -/
def Frame.inBounds (f : Frame) : Prop :=
  Frame.MIN_WIDTH ≤ f.width ∧ f.width ≤ Frame.MAX_WIDTH ∧
  Frame.MIN_HEIGHT ≤ f.height ∧ f.height ≤ Frame.MAX_HEIGHT ∧
  Frame.MIN_AREA ≤ f.area_left ∧ f.area_left ≤ Frame.MAX_AREA ∧
  Frame.MIN_AREA ≤ f.area_right ∧ f.area_right ≤ Frame.MAX_AREA ∧
  Frame.MIN_AREA ≤ f.area_base ∧ f.area_base ≤ Frame.MAX_AREA

instance (f : Frame) : Decidable f.inBounds := by
  unfold Frame.inBounds
  infer_instance

/-- The fitness computation inlined at Step 3 of `optimize_frame` in
optimizer.py: base fitness is the mass, and each violated constraint adds
`mass * 10 * (overshoot ratio - 1)`. -/
def fitnessScore (mass max_stress max_defl : ℚ) : ℚ :=
  let fitness := mass
  let fitness :=
    if yield_stress < max_stress then
      fitness + mass * 10 * (max_stress / yield_stress - 1)
    else fitness
  let fitness :=
    if max_deflection < max_defl then
      fitness + mass * 10 * (max_defl / max_deflection - 1)
    else fitness
  fitness

/-- One entry of the `fitness_scores` list built by `optimize_frame`:
the tuple `(fitness, frame, mass, max_stress, max_defl)`. -/
structure Record where
  fitness : ℚ
  frame : Frame
  mass : ℚ
  max_stress : ℚ
  max_defl : ℚ
deriving DecidableEq

/-- The external structural analyzer `fea_solver.analyze_frame` as consumed
by optimizer.py: it returns `(mass, max_stress, max_deflection)` for a
frame, or raises (modelled as `Except.error ()`). -/
def Analyzer : Type := Frame → Except Unit (ℚ × ℚ × ℚ)

/-- The body of the Step 2/3 evaluation loop of `optimize_frame` for one
frame: call `analyze_frame`, then build the fitness record.  There is no
exception handling around the analyzer call in the source. -/
def evalFrame (analyze : Analyzer) (frame : Frame) : Except Unit Record :=
  match analyze frame with
  | .error e => .error e
  | .ok (mass, max_stress, max_defl) =>
    .ok ⟨fitnessScore mass max_stress max_defl, frame, mass, max_stress, max_defl⟩

/-- The Step 2/3 evaluation loop of `optimize_frame` over the whole
population, in population order; a raised analyzer error aborts the loop
(the source has no try/except). -/
def evalPopulation (analyze : Analyzer) : List Frame → Except Unit (List Record)
  | [] => .ok []
  | frame :: rest =>
    match evalFrame analyze frame with
    | .error e => .error e
    | .ok r =>
      match evalPopulation analyze rest with
      | .error e => .error e
      | .ok rs => .ok (r :: rs)

/-- Ordered insertion by fitness, the building block of `sortRecords`. -/
def insertRecord (r : Record) : List Record → List Record
  | [] => [r]
  | s :: rest => if r.fitness ≤ s.fitness then r :: s :: rest else s :: insertRecord r rest

/-- The Step 4 ranking `fitness_scores.sort(key=lambda x: x[0])` of
optimizer.py: sort ascending by fitness (modelled as insertion sort; the
spec lets ties be broken arbitrarily and no claim depends on tie order). -/
def sortRecords : List Record → List Record
  | [] => []
  | r :: rest => insertRecord r (sortRecords rest)

/-- Oracle for the random draws consumed while producing one offspring in
the Step 6 reproduction loop: `p1`, `p2` feed the two `random.choice`
parent picks (an arbitrary index, reduced mod the pool size), `cw..cab`
the five `random.choice([parent1.x, parent2.x])` crossover picks, and
`mrand` the draws of the child's `mutate(mutation_rate=0.1)` call. -/
structure ChildRand where
  p1 : ℕ
  p2 : ℕ
  cw : Bool
  ch : Bool
  cal : Bool
  car : Bool
  cab : Bool
  mrand : MutRand
deriving DecidableEq

/-- Crossover plus mutation for one child, from the Step 6 body of
`optimize_frame`: each design variable is inherited from parent 1 or
parent 2, the child frame is constructed, then `mutate(0.1)` is applied. -/
def crossoverChild (parent1 parent2 : Frame) (c : ChildRand) : Frame :=
  let child := Frame.make
    (if c.cw then parent1.width else parent2.width)
    (if c.ch then parent1.height else parent2.height)
    (if c.cal then parent1.area_left else parent2.area_left)
    (if c.car then parent1.area_right else parent2.area_right)
    (if c.cab then parent1.area_base else parent2.area_base)
  child.mutate (1 / 10) c.mrand

/-- Python's `random.choice(seq)`: an element at a uniformly drawn valid
index; raises on an empty sequence. -/
def choice (l : List Frame) (i : ℕ) : Except Unit Frame :=
  match l.get? (i % l.length) with
  | some f => .ok f
  | none => .error ()

/-- One iteration of the Step 6 `while` loop of `optimize_frame`: pick two
parents with `random.choice`, produce the crossover child, mutate it. -/
def makeChild (parents : List Frame) (c : ChildRand) : Except Unit Frame :=
  match choice parents c.p1, choice parents c.p2 with
  | .ok parent1, .ok parent2 => .ok (crossoverChild parent1 parent2 c)
  | _, _ => .error ()

/-- The Step 6 `while len(new_pop) < pop_size` loop of `optimize_frame`,
producing the required number of offspring (`pop_size - 2` when starting
from the two elites). -/
def makeChildren (parents : List Frame) (cr : ℕ → ChildRand) : ℕ → Except Unit (List Frame)
  | 0 => .ok []
  | n + 1 =>
    match makeChild parents (cr n) with
    | .error e => .error e
    | .ok c =>
      match makeChildren parents cr n with
      | .error e => .error e
      | .ok rest => .ok (c :: rest)

/-- The per-generation state of `optimize_frame`: the population list plus
the best-ever record (`best_fitness` starts at `float('inf')` with
`best_frame = None`, modelled as `none`; once a record exists both are
set together). -/
structure GAState where
  population : List Frame
  best : Option (ℚ × Frame)
deriving DecidableEq

/-- The Step 4 best-ever update of `optimize_frame`: replace the record
exactly when the current top fitness is strictly smaller (any fitness is
strictly smaller than the initial `float('inf')`). -/
def updateBest (best : Option (ℚ × Frame)) (r : Record) : Option (ℚ × Frame) :=
  match best with
  | none => some (r.fitness, r.frame)
  | some (bf, bfr) => if r.fitness < bf then some (r.fitness, r.frame) else some (bf, bfr)

/-- One iteration of the `for gen in range(generations)` loop of
`optimize_frame`: evaluate, rank, update best-ever, select the top-half
parent pool, carry the two elites, breed children.  Accessing
`fitness_scores[0]` / `fitness_scores[1]` on a too-short list raises
(modelled by the catch-all `.error ()` arm), exactly as Python's
IndexError would. -/
def stepGen (analyze : Analyzer) (pop_size : ℕ) (cr : ℕ → ChildRand) (st : GAState) :
    Except Unit GAState :=
  match evalPopulation analyze st.population with
  | .error e => .error e
  | .ok fitness_scores =>
    let sorted := sortRecords fitness_scores
    match sorted with
    | r0 :: r1 :: _ =>
      let best := updateBest st.best r0
      let num_parents := pop_size / 2
      let parents := (sorted.take num_parents).map Record.frame
      match makeChildren parents cr (pop_size - 2) with
      | .error e => .error e
      | .ok children => .ok ⟨r0.frame :: r1.frame :: children, best⟩
    | _ => .error ()

/-- The `for gen in range(generations)` loop of `optimize_frame`, with one
`ChildRand` stream per generation. -/
def runGens (analyze : Analyzer) (pop_size : ℕ) (gr : ℕ → ℕ → ChildRand) :
    ℕ → GAState → Except Unit GAState
  | 0, st => .ok st
  | g + 1, st =>
    match stepGen analyze pop_size (gr g) st with
    | .error e => .error e
    | .ok st2 => runGens analyze pop_size gr g st2

/-- Step 1 of `optimize_frame`: the initial population of `pop_size`
frames drawn by `Frame.random_frame`. -/
def init_population (ir : ℕ → InitRand) : ℕ → List Frame
  | 0 => []
  | n + 1 => Frame.random_frame (ir n) :: init_population ir n

/-- The whole `optimize_frame(pop_size, generations)` of optimizer.py with
its randomness and the analyzer made explicit.  The source performs no
validation of `pop_size` or `generations`; it returns `best_frame` only
(initially `None`), not the fitness. -/
def optimize_frame (analyze : Analyzer) (ir : ℕ → InitRand) (gr : ℕ → ℕ → ChildRand)
    (pop_size generations : ℕ) : Except Unit (Option Frame) :=
  match runGens analyze pop_size gr generations ⟨init_population ir pop_size, none⟩ with
  | .error e => .error e
  | .ok st => .ok (st.best.map Prod.snd)

/-- Best (lowest) fitness among a generation's records: the fitness at the
head of the ranked list. -/
def bestFitness (recs : List Record) : Option ℚ :=
  ((sortRecords recs).head?).map Record.fitness

/-- Concrete frame at the lower bounds, used for concrete runs. -/
def cexFrame : Frame := Frame.make 1 1 (1 / 10 ^ 4) (1 / 10 ^ 4) (1 / 10 ^ 4)

/-- Concrete record produced by evaluating `cexFrame` under `okAnalyzer`. -/
def cexRec : Record := ⟨1, cexFrame, 1, 0, 0⟩

/-- Concrete initialization stream: every `random.random()` draw is 0, so
every sampled frame sits at the lower bounds. -/
def cexIR : ℕ → InitRand := fun _ => ⟨0, 0, 0, 0, 0⟩

/-- Concrete mutation draws: all coin flips are 1, so no variable mutates. -/
def cexMut : MutRand := ⟨1, 1, 1, 1, 1, 0, 0, 0, 0, 0⟩

/-- Concrete reproduction stream for concrete runs. -/
def cexGR : ℕ → ℕ → ChildRand := fun _ _ => ⟨0, 0, true, true, true, true, true, cexMut⟩

/-- Concrete analyzer that always succeeds with mass 1 and no violations. -/
def okAnalyzer : Analyzer := fun _ => .ok (1, 0, 0)

/-- Concrete analyzer that always succeeds with mass 2 and no violations. -/
def okAnalyzer2 : Analyzer := fun _ => .ok (2, 0, 0)

/-- Concrete analyzer that always raises. -/
def failAnalyzer : Analyzer := fun _ => .error ()

/-- The clamp lands inside the bounds whenever the bounds are ordered. -/
theorem clamp_bounds (lo hi v : ℚ) (h : lo ≤ hi) : lo ≤ clamp lo hi v ∧ clamp lo hi v ≤ hi := by
  unfold clamp
  exact ⟨le_max_left lo (min v hi), max_le h (min_le_right v hi)⟩

/-- A `random.uniform(a, b)` value lies in `[a, b]` when `a ≤ b` and the
underlying draw lies in `[0, 1)`. -/
theorem uniform_bounds (a b x : ℚ) (hab : a ≤ b) (h0 : 0 ≤ x) (h1 : x < 1) :
    a ≤ uniform a b x ∧ uniform a b x ≤ b := by
  unfold uniform
  constructor
  · nlinarith
  · nlinarith

/-- One mutated design variable stays within ordered bounds: either it is
untouched (and was in bounds) or it is clamped. -/
theorem mutVar_bounds (lo hi v d k rate x : ℚ) (hlh : lo ≤ hi) (hv1 : lo ≤ v) (hv2 : v ≤ hi) :
    lo ≤ (if k < rate then clamp lo hi (v + uniform (-d) d x) else v) ∧
    (if k < rate then clamp lo hi (v + uniform (-d) d x) else v) ≤ hi := by
  split_ifs
  · exact clamp_bounds lo hi _ hlh
  · exact ⟨hv1, hv2⟩

/-- Mutation keeps an in-bounds frame in bounds: untouched variables are
unchanged and perturbed ones are clamped. -/
theorem Frame.mutate_inBounds (f : Frame) (rate : ℚ) (m : MutRand) (hf : f.inBounds) :
    (f.mutate rate m).inBounds := by
  obtain ⟨h1, h2, h3, h4, h5, h6, h7, h8, h9, h10⟩ := hf
  have har : Frame.MIN_AREA ≤ Frame.MAX_AREA := by
    norm_num [Frame.MIN_AREA, Frame.MAX_AREA]
  have hwd : Frame.MIN_WIDTH ≤ Frame.MAX_WIDTH := by
    norm_num [Frame.MIN_WIDTH, Frame.MAX_WIDTH]
  have hht : Frame.MIN_HEIGHT ≤ Frame.MAX_HEIGHT := by
    norm_num [Frame.MIN_HEIGHT, Frame.MAX_HEIGHT]
  simp only [Frame.mutate, Frame.inBounds]
  exact ⟨(mutVar_bounds _ _ _ _ _ _ _ hwd h1 h2).1, (mutVar_bounds _ _ _ _ _ _ _ hwd h1 h2).2,
    (mutVar_bounds _ _ _ _ _ _ _ hht h3 h4).1, (mutVar_bounds _ _ _ _ _ _ _ hht h3 h4).2,
    (mutVar_bounds _ _ _ _ _ _ _ har h5 h6).1, (mutVar_bounds _ _ _ _ _ _ _ har h5 h6).2,
    (mutVar_bounds _ _ _ _ _ _ _ har h7 h8).1, (mutVar_bounds _ _ _ _ _ _ _ har h7 h8).2,
    (mutVar_bounds _ _ _ _ _ _ _ har h9 h10).1, (mutVar_bounds _ _ _ _ _ _ _ har h9 h10).2⟩

/-- A randomly sampled frame has all variables inside their bounds when the
five underlying draws lie in `[0, 1)`. -/
theorem Frame.random_frame_inBounds (r : InitRand)
    (hw0 : 0 ≤ r.xw) (hw1 : r.xw < 1) (hh0 : 0 ≤ r.xh) (hh1 : r.xh < 1)
    (hl0 : 0 ≤ r.xl) (hl1 : r.xl < 1) (hr0 : 0 ≤ r.xr) (hr1 : r.xr < 1)
    (hb0 : 0 ≤ r.xb) (hb1 : r.xb < 1) : (Frame.random_frame r).inBounds := by
  have hwd : Frame.MIN_WIDTH ≤ Frame.MAX_WIDTH := by
    norm_num [Frame.MIN_WIDTH, Frame.MAX_WIDTH]
  have hht : Frame.MIN_HEIGHT ≤ Frame.MAX_HEIGHT := by
    norm_num [Frame.MIN_HEIGHT, Frame.MAX_HEIGHT]
  have har : Frame.MIN_AREA ≤ Frame.MAX_AREA := by
    norm_num [Frame.MIN_AREA, Frame.MAX_AREA]
  simp only [Frame.random_frame, Frame.make, Frame.inBounds]
  exact ⟨(uniform_bounds _ _ _ hwd hw0 hw1).1, (uniform_bounds _ _ _ hwd hw0 hw1).2,
    (uniform_bounds _ _ _ hht hh0 hh1).1, (uniform_bounds _ _ _ hht hh0 hh1).2,
    (uniform_bounds _ _ _ har hl0 hl1).1, (uniform_bounds _ _ _ har hl0 hl1).2,
    (uniform_bounds _ _ _ har hr0 hr1).1, (uniform_bounds _ _ _ har hr0 hr1).2,
    (uniform_bounds _ _ _ har hb0 hb1).1, (uniform_bounds _ _ _ har hb0 hb1).2⟩

/-- A value inherited from one of two in-bounds parents is in bounds. -/
theorem pick_bounds (lo hi a b : ℚ) (c : Bool) (ha1 : lo ≤ a) (ha2 : a ≤ hi)
    (hb1 : lo ≤ b) (hb2 : b ≤ hi) :
    lo ≤ (if c then a else b) ∧ (if c then a else b) ≤ hi := by
  cases c
  · simpa using ⟨hb1, hb2⟩
  · simpa using ⟨ha1, ha2⟩

/-- A crossover child of two in-bounds parents, after its mutation, is in
bounds: every inherited variable comes from one of the parents. -/
theorem crossoverChild_inBounds (p1 p2 : Frame) (c : ChildRand)
    (h1 : p1.inBounds) (h2 : p2.inBounds) : (crossoverChild p1 p2 c).inBounds := by
  unfold crossoverChild
  apply Frame.mutate_inBounds
  obtain ⟨a1, a2, a3, a4, a5, a6, a7, a8, a9, a10⟩ := h1
  obtain ⟨b1, b2, b3, b4, b5, b6, b7, b8, b9, b10⟩ := h2
  simp only [Frame.make, Frame.inBounds]
  exact ⟨(pick_bounds _ _ _ _ _ a1 a2 b1 b2).1, (pick_bounds _ _ _ _ _ a1 a2 b1 b2).2,
    (pick_bounds _ _ _ _ _ a3 a4 b3 b4).1, (pick_bounds _ _ _ _ _ a3 a4 b3 b4).2,
    (pick_bounds _ _ _ _ _ a5 a6 b5 b6).1, (pick_bounds _ _ _ _ _ a5 a6 b5 b6).2,
    (pick_bounds _ _ _ _ _ a7 a8 b7 b8).1, (pick_bounds _ _ _ _ _ a7 a8 b7 b8).2,
    (pick_bounds _ _ _ _ _ a9 a10 b9 b10).1, (pick_bounds _ _ _ _ _ a9 a10 b9 b10).2⟩

/-- A successful `evalFrame` records the very frame it was given, with the
fitness computed from its own mass/stress/deflection entries. -/
theorem evalFrame_ok (analyze : Analyzer) (f : Frame) (r : Record)
    (h : evalFrame analyze f = .ok r) :
    r.frame = f ∧ r.fitness = fitnessScore r.mass r.max_stress r.max_defl ∧
      analyze f = .ok (r.mass, r.max_stress, r.max_defl) := by
  unfold evalFrame at h
  cases ha : analyze f with
  | error e =>
    simp only [ha] at h
    exact Except.noConfusion h
  | ok t =>
    obtain ⟨m, s, d⟩ := t
    simp only [ha] at h
    cases h
    exact ⟨rfl, rfl, rfl⟩

/-- Every record of a successful population evaluation re-evaluates to
itself and carries a frame from the evaluated population. -/
theorem evalPopulation_mem (analyze : Analyzer) (pop : List Frame) (recs : List Record)
    (h : evalPopulation analyze pop = .ok recs) :
    ∀ r ∈ recs, evalFrame analyze r.frame = .ok r ∧ r.frame ∈ pop := by
  induction pop generalizing recs with
  | nil =>
    unfold evalPopulation at h
    cases h
    intro r hr
    cases hr
  | cons f rest ih =>
    unfold evalPopulation at h
    cases he : evalFrame analyze f with
    | error e =>
      simp only [he] at h
      exact Except.noConfusion h
    | ok r0 =>
      simp only [he] at h
      cases hrest : evalPopulation analyze rest with
      | error e =>
        simp only [hrest] at h
        exact Except.noConfusion h
      | ok rs =>
        simp only [hrest] at h
        cases h
        intro r hr
        rcases List.mem_cons.mp hr with rfl | hr2
        · have hfr := (evalFrame_ok analyze f r he).1
          rw [hfr]
          exact ⟨he, List.mem_cons_self f rest⟩
        · obtain ⟨ha, hb⟩ := ih rs hrest r hr2
          exact ⟨ha, List.mem_cons_of_mem f hb⟩

/-- A successful population evaluation yields one record per individual. -/
theorem evalPopulation_length (analyze : Analyzer) (pop : List Frame) (recs : List Record)
    (h : evalPopulation analyze pop = .ok recs) : recs.length = pop.length := by
  induction pop generalizing recs with
  | nil =>
    unfold evalPopulation at h
    cases h
    rfl
  | cons f rest ih =>
    unfold evalPopulation at h
    cases he : evalFrame analyze f with
    | error e =>
      simp only [he] at h
      exact Except.noConfusion h
    | ok r0 =>
      simp only [he] at h
      cases hrest : evalPopulation analyze rest with
      | error e =>
        simp only [hrest] at h
        exact Except.noConfusion h
      | ok rs =>
        simp only [hrest] at h
        cases h
        simp [ih rs hrest]

/-- If the analyzer raises on any member of the population, the evaluation
loop raises: there is no exception handling in the source. -/
theorem evalPopulation_error (analyze : Analyzer) (pop : List Frame) (f : Frame)
    (hf : f ∈ pop) (he : analyze f = .error ()) :
    evalPopulation analyze pop = .error () := by
  induction pop with
  | nil => cases hf
  | cons g rest ih =>
    unfold evalPopulation
    rcases List.mem_cons.mp hf with rfl | hmem
    · unfold evalFrame
      simp only [he]
    · cases hg : evalFrame analyze g with
      | error e =>
        cases e
        rfl
      | ok r =>
        simp only [ih hmem]

/-- Inserting into the ranked list is a permutation of consing. -/
theorem insertRecord_perm (r : Record) (l : List Record) :
    (insertRecord r l).Perm (r :: l) := by
  induction l with
  | nil => exact List.Perm.refl _
  | cons s rest ih =>
    unfold insertRecord
    split
    · exact List.Perm.refl _
    · exact (ih.cons s).trans (List.Perm.swap r s rest)

/-- Ranking permutes the record list. -/
theorem sortRecords_perm (l : List Record) : (sortRecords l).Perm l := by
  induction l with
  | nil => exact List.Perm.refl _
  | cons r rest ih =>
    unfold sortRecords
    exact (insertRecord_perm r (sortRecords rest)).trans (ih.cons r)

/-- Insertion preserves ascending order by fitness. -/
theorem insertRecord_pairwise (r : Record) (l : List Record)
    (h : l.Pairwise (fun a b => a.fitness ≤ b.fitness)) :
    (insertRecord r l).Pairwise (fun a b => a.fitness ≤ b.fitness) := by
  induction l with
  | nil => simp [insertRecord]
  | cons s rest ih =>
    obtain ⟨hs, hrest⟩ := List.pairwise_cons.mp h
    unfold insertRecord
    split
    case isTrue hle =>
      refine List.pairwise_cons.mpr ⟨?_, h⟩
      intro b hb
      rcases List.mem_cons.mp hb with rfl | hb2
      · exact hle
      · exact le_trans hle (hs b hb2)
    case isFalse hgt =>
      refine List.pairwise_cons.mpr ⟨?_, ih hrest⟩
      intro b hb
      rcases List.mem_cons.mp ((insertRecord_perm r rest).mem_iff.mp hb) with rfl | hb4
      · exact le_of_not_le hgt
      · exact hs b hb4

/-- The ranked list is ascending by fitness. -/
theorem sortRecords_pairwise (l : List Record) :
    (sortRecords l).Pairwise (fun a b => a.fitness ≤ b.fitness) := by
  induction l with
  | nil => simp [sortRecords]
  | cons r rest ih =>
    unfold sortRecords
    exact insertRecord_pairwise r (sortRecords rest) ih

/-- The head of the ranked list has minimal fitness in the generation. -/
theorem sortRecords_head_min (l : List Record) (r0 : Record) (tl : List Record)
    (h : sortRecords l = r0 :: tl) : ∀ r ∈ l, r0.fitness ≤ r.fitness := by
  intro r hr
  have hmem : r ∈ sortRecords l := (sortRecords_perm l).mem_iff.mpr hr
  rw [h] at hmem
  rcases List.mem_cons.mp hmem with rfl | htl
  · exact le_refl _
  · have hp := sortRecords_pairwise l
    rw [h] at hp
    exact (List.pairwise_cons.mp hp).1 r htl

/-- Ranking preserves the number of records. -/
theorem sortRecords_length (l : List Record) : (sortRecords l).length = l.length :=
  (sortRecords_perm l).length_eq

/-- With a ranked head available, `bestFitness` is that head's fitness. -/
theorem bestFitness_eq (l : List Record) (r0 : Record) (tl : List Record)
    (h : sortRecords l = r0 :: tl) : bestFitness l = some r0.fitness := by
  unfold bestFitness
  rw [h]
  rfl

/-- A successful reproduction loop produces exactly the requested number
of children. -/
theorem makeChildren_length (parents : List Frame) (cr : ℕ → ChildRand) (n : ℕ)
    (cs : List Frame) (h : makeChildren parents cr n = .ok cs) : cs.length = n := by
  induction n generalizing cs with
  | zero =>
    unfold makeChildren at h
    cases h
    rfl
  | succ k ih =>
    unfold makeChildren at h
    cases hc : makeChild parents (cr k) with
    | error e =>
      simp only [hc] at h
      exact Except.noConfusion h
    | ok c =>
      simp only [hc] at h
      cases hrest : makeChildren parents cr k with
      | error e =>
        simp only [hrest] at h
        exact Except.noConfusion h
      | ok rest =>
        simp only [hrest] at h
        cases h
        simp [ih rest hrest]

/-- The initial population has exactly `pop_size` members. -/
theorem init_population_length (ir : ℕ → InitRand) (n : ℕ) :
    (init_population ir n).length = n := by
  induction n with
  | zero => rfl
  | succ k ih => simp [init_population, ih]

/-- Inversion of one successful generation step: the evaluation succeeded,
the ranked list has at least two records, reproduction succeeded, and the
next state is the two elites followed by the children, with the best-ever
record updated from the ranked head. -/
theorem stepGen_ok_inv (analyze : Analyzer) (ps : ℕ) (cr : ℕ → ChildRand)
    (st st' : GAState) (h : stepGen analyze ps cr st = .ok st') :
    ∃ recs r0 r1 tl children,
      evalPopulation analyze st.population = .ok recs ∧
      sortRecords recs = r0 :: r1 :: tl ∧
      makeChildren (((sortRecords recs).take (ps / 2)).map Record.frame) cr (ps - 2) =
        .ok children ∧
      st' = ⟨r0.frame :: r1.frame :: children, updateBest st.best r0⟩ := by
  unfold stepGen at h
  cases heval : evalPopulation analyze st.population with
  | error e =>
    simp only [heval] at h
    exact Except.noConfusion h
  | ok recs =>
    simp only [heval] at h
    cases hsort : sortRecords recs with
    | nil =>
      simp only [hsort] at h
      exact Except.noConfusion h
    | cons r0 rest =>
      cases rest with
      | nil =>
        simp only [hsort] at h
        exact Except.noConfusion h
      | cons r1 tl =>
        simp only [hsort] at h
        cases hmk : makeChildren ((List.take (ps / 2) (r0 :: r1 :: tl)).map Record.frame)
            cr (ps - 2) with
        | error e =>
          simp only [hmk] at h
          exact Except.noConfusion h
        | ok children =>
          simp only [hmk] at h
          cases h
          refine ⟨recs, r0, r1, tl, children, rfl, hsort, ?_, rfl⟩
          rw [hsort]
          exact hmk

/-- Core algebra of the penalty scheme: fitness is bounded below by the
mass, with equality exactly on constraint-satisfying results. -/
theorem fitnessScore_lower (m s d : ℚ) (hm : 0 < m) :
    m ≤ fitnessScore m s d ∧
      (fitnessScore m s d = m ↔ s ≤ yield_stress ∧ d ≤ max_deflection) := by
  have hY : (0 : ℚ) < yield_stress := by norm_num [yield_stress]
  have hL : (0 : ℚ) < max_deflection := by norm_num [max_deflection]
  unfold fitnessScore
  split_ifs with hs hd hd
  · have p1 : 0 < m * 10 * (s / yield_stress - 1) :=
      mul_pos (by positivity) (sub_pos.mpr ((one_lt_div hY).mpr hs))
    have p2 : 0 < m * 10 * (d / max_deflection - 1) :=
      mul_pos (by positivity) (sub_pos.mpr ((one_lt_div hL).mpr hd))
    refine ⟨by linarith, ?_, ?_⟩
    · intro he
      exfalso
      linarith
    · rintro ⟨hsy, _⟩
      exact absurd hs (not_lt.mpr hsy)
  · have p1 : 0 < m * 10 * (s / yield_stress - 1) :=
      mul_pos (by positivity) (sub_pos.mpr ((one_lt_div hY).mpr hs))
    refine ⟨by linarith, ?_, ?_⟩
    · intro he
      exfalso
      linarith
    · rintro ⟨hsy, _⟩
      exact absurd hs (not_lt.mpr hsy)
  · have p2 : 0 < m * 10 * (d / max_deflection - 1) :=
      mul_pos (by positivity) (sub_pos.mpr ((one_lt_div hL).mpr hd))
    refine ⟨by linarith, ?_, ?_⟩
    · intro he
      exfalso
      linarith
    · rintro ⟨_, hdl⟩
      exact absurd hd (not_lt.mpr hdl)
  · exact ⟨le_refl m, fun _ => ⟨not_lt.mp hs, not_lt.mp hd⟩, fun _ => rfl⟩

/-- The concrete frame is in bounds. -/
theorem cexFrame_inBounds : cexFrame.inBounds := by
  norm_num [cexFrame, Frame.make, Frame.inBounds, Frame.MIN_WIDTH, Frame.MAX_WIDTH,
    Frame.MIN_HEIGHT, Frame.MAX_HEIGHT, Frame.MIN_AREA, Frame.MAX_AREA]

/-- Concrete initialization: the all-zeros stream samples the lower-bound
frame twice. -/
theorem cex_init : init_population cexIR 2 = [cexFrame, cexFrame] := by
  norm_num [init_population, cexIR, Frame.random_frame, uniform, cexFrame, Frame.make,
    Frame.MIN_WIDTH, Frame.MAX_WIDTH, Frame.MIN_HEIGHT, Frame.MAX_HEIGHT, Frame.MIN_AREA,
    Frame.MAX_AREA]

/-- Concrete single-frame evaluation under `okAnalyzer`. -/
theorem cex_eval_single : evalPopulation okAnalyzer [cexFrame] = .ok [cexRec] := by
  norm_num [evalPopulation, evalFrame, okAnalyzer, fitnessScore, yield_stress,
    max_deflection, cexRec]

/-- Concrete two-frame evaluation under `okAnalyzer`. -/
theorem cex_eval : evalPopulation okAnalyzer [cexFrame, cexFrame] = .ok [cexRec, cexRec] := by
  norm_num [evalPopulation, evalFrame, okAnalyzer, fitnessScore, yield_stress,
    max_deflection, cexRec]

/-- Concrete two-frame evaluation under `okAnalyzer2`. -/
theorem cex_eval2 :
    evalPopulation okAnalyzer2 [cexFrame, cexFrame] =
      .ok [⟨2, cexFrame, 2, 0, 0⟩, ⟨2, cexFrame, 2, 0, 0⟩] := by
  norm_num [evalPopulation, evalFrame, okAnalyzer2, fitnessScore, yield_stress,
    max_deflection]

/-- Concrete ranking of the two equal records. -/
theorem cex_sort : sortRecords [cexRec, cexRec] = [cexRec, cexRec] := by
  norm_num [sortRecords, insertRecord, cexRec]

/-- Concrete ranking of the two equal mass-2 records. -/
theorem cex_sort2 :
    sortRecords [⟨2, cexFrame, 2, 0, 0⟩, ⟨2, cexFrame, 2, 0, 0⟩] =
      [⟨2, cexFrame, 2, 0, 0⟩, ⟨2, cexFrame, 2, 0, 0⟩] := by
  norm_num [sortRecords, insertRecord]

/-- Concrete best fitness of the evaluated two-frame generation. -/
theorem cex_best : bestFitness [cexRec, cexRec] = some 1 := by
  unfold bestFitness
  rw [cex_sort]
  rfl

/-- Concrete generation step under `okAnalyzer` at `pop_size = 2`. -/
theorem cex_step :
    stepGen okAnalyzer 2 (cexGR 0) ⟨[cexFrame, cexFrame], none⟩ =
      .ok ⟨[cexFrame, cexFrame], some (1, cexFrame)⟩ := by
  unfold stepGen
  rw [show (GAState.mk [cexFrame, cexFrame] none).population = [cexFrame, cexFrame] from rfl,
    cex_eval]
  dsimp only
  rw [cex_sort]
  rfl

/-- Concrete generation step under `okAnalyzer2` at `pop_size = 2`. -/
theorem cex_step2 :
    stepGen okAnalyzer2 2 (cexGR 0) ⟨[cexFrame, cexFrame], none⟩ =
      .ok ⟨[cexFrame, cexFrame], some (2, cexFrame)⟩ := by
  unfold stepGen
  rw [show (GAState.mk [cexFrame, cexFrame] none).population = [cexFrame, cexFrame] from rfl,
    cex_eval2]
  dsimp only
  rw [cex_sort2]
  rfl

/-- Concrete one-generation run under `okAnalyzer`. -/
theorem cex_run :
    runGens okAnalyzer 2 cexGR 1 ⟨[cexFrame, cexFrame], none⟩ =
      .ok ⟨[cexFrame, cexFrame], some (1, cexFrame)⟩ := by
  norm_num [runGens, cex_step]

/-- Concrete one-generation run under `okAnalyzer2`. -/
theorem cex_run2 :
    runGens okAnalyzer2 2 cexGR 1 ⟨[cexFrame, cexFrame], none⟩ =
      .ok ⟨[cexFrame, cexFrame], some (2, cexFrame)⟩ := by
  norm_num [runGens, cex_step2]

/-- Concrete full optimizer run under `okAnalyzer`: `pop_size = 2`,
one generation, completing normally. -/
theorem cex_opt_ok : optimize_frame okAnalyzer cexIR cexGR 2 1 = .ok (some cexFrame) := by
  unfold optimize_frame
  rw [cex_init, cex_run]
  rfl

/-- Concrete full optimizer run under `okAnalyzer2`. -/
theorem cex_opt_ok2 : optimize_frame okAnalyzer2 cexIR cexGR 2 1 = .ok (some cexFrame) := by
  unfold optimize_frame
  rw [cex_init, cex_run2]
  rfl

/-- C1, counterexample: with an analyzer that raises on the (lower-bound)
individuals of a concrete `pop_size = 2`, one-generation run, the whole
optimizer run aborts with the error instead of completing the generation
with a full evaluated population, refuting the claim that the failure is
absorbed within the evaluation step. -/
theorem analyzer_error_propagates_cex :
    optimize_frame failAnalyzer cexIR cexGR 2 1 = .error () := rfl

/-- C1 (amended): if the analyzer raises for any individual of the current
population, the generation step does not absorb the failure: the whole
step (and hence the generation loop) aborts with the error; no individual
is skipped or penalized. -/
theorem analyzer_error_crashes_generation (analyze : Analyzer) (ps : ℕ)
    (cr : ℕ → ChildRand) (st : GAState) (f : Frame)
    (hf : f ∈ st.population) (he : analyze f = .error ()) :
    stepGen analyze ps cr st = .error () := by
  unfold stepGen
  simp only [evalPopulation_error analyze st.population f hf he]

/-- C1, witness: the amended theorem applied to a concrete population and
failing analyzer. -/
theorem analyzer_error_crashes_generation_witness :
    stepGen failAnalyzer 2 (cexGR 0) ⟨[cexFrame], none⟩ = .error () :=
  analyzer_error_crashes_generation failAnalyzer 2 (cexGR 0) ⟨[cexFrame], none⟩ cexFrame
    (List.mem_singleton.mpr rfl) rfl

/-- C2, counterexample: two concrete runs (identical except that the
second analyzer reports mass 2 instead of mass 1) end with different
best-ever fitness values (1 versus 2) yet `optimize_frame` returns exactly
the same value for both, so the returned value cannot contain the
best-ever fitness: the claim that the optimizer returns both the Frame and
its fitness is false. -/
theorem best_fitness_not_returned_cex :
    optimize_frame okAnalyzer cexIR cexGR 2 1 = optimize_frame okAnalyzer2 cexIR cexGR 2 1 ∧
    runGens okAnalyzer 2 cexGR 1 ⟨[cexFrame, cexFrame], none⟩ =
      .ok ⟨[cexFrame, cexFrame], some (1, cexFrame)⟩ ∧
    runGens okAnalyzer2 2 cexGR 1 ⟨[cexFrame, cexFrame], none⟩ =
      .ok ⟨[cexFrame, cexFrame], some (2, cexFrame)⟩ ∧
    ((1 : ℚ), cexFrame) ≠ ((2 : ℚ), cexFrame) := by
  refine ⟨?_, cex_run, cex_run2, ?_⟩
  · rw [cex_opt_ok, cex_opt_ok2]
  · intro h
    have := congrArg Prod.fst h
    norm_num at this

/-- C2 (amended): the best-ever record (fitness, Frame) is updated in a
generation exactly when that generation's top-ranked fitness is strictly
less than the best fitness seen in all prior generations (a first record
always installs itself against the initial infinity), and `optimize_frame`
returns the best-ever Frame only — the tracked fitness is not part of the
return value. -/
theorem optimize_frame_returns_best_ever (analyze : Analyzer) (ps : ℕ)
    (cr : ℕ → ChildRand) (st st' : GAState) (recs : List Record) (r0 : Record)
    (tl : List Record)
    (hstep : stepGen analyze ps cr st = .ok st')
    (heval : evalPopulation analyze st.population = .ok recs)
    (hsort : sortRecords recs = r0 :: tl) :
    (st.best = none → st'.best = some (r0.fitness, r0.frame)) ∧
    (∀ bf bfr, st.best = some (bf, bfr) →
      st'.best = if r0.fitness < bf then some (r0.fitness, r0.frame) else some (bf, bfr)) ∧
    ∀ (ir : ℕ → InitRand) (gr : ℕ → ℕ → ChildRand) (n g : ℕ) (stf : GAState),
      runGens analyze n gr g ⟨init_population ir n, none⟩ = .ok stf →
      optimize_frame analyze ir gr n g = .ok (stf.best.map Prod.snd) := by
  obtain ⟨recs0, s0, s1, stl, children, he0, hs0, hmk, hst⟩ :=
    stepGen_ok_inv analyze ps cr st st' hstep
  rw [heval] at he0
  cases he0
  have hrr : r0 = s0 := by
    rw [hsort] at hs0
    injection hs0 with h1 h2
  subst hrr
  subst hst
  refine ⟨?_, ?_, ?_⟩
  · intro hb
    show updateBest st.best r0 = some (r0.fitness, r0.frame)
    rw [hb]
    rfl
  · intro bf bfr hb
    show updateBest st.best r0 = _
    rw [hb]
    rfl
  · intro ir gr n g stf hrun
    unfold optimize_frame
    rw [hrun]

/-- C2, witness: the amended theorem applied to the concrete run. -/
theorem optimize_frame_returns_best_ever_witness :
    (GAState.mk [cexFrame, cexFrame] (some (1, cexFrame))).best =
      some (cexRec.fitness, cexRec.frame) :=
  (optimize_frame_returns_best_ever okAnalyzer 2 (cexGR 0) ⟨[cexFrame, cexFrame], none⟩
    ⟨[cexFrame, cexFrame], some (1, cexFrame)⟩ [cexRec, cexRec] cexRec [cexRec]
    cex_step cex_eval cex_sort).1 rfl

/-- C3: the fitness equals the mass plus the stress penalty
`mass * 10 * (max_stress / yield_stress - 1)` exactly when
`max_stress > yield_stress`, plus the deflection penalty
`mass * 10 * (max_defl / max_deflection - 1)` exactly when
`max_defl > max_deflection`, the two penalties being additive and
independent; and a design at exactly 110% of yield stress with the
deflection constraint satisfied has fitness `2 * mass`. -/
theorem fitness_penalty_formula :
    (∀ mass max_stress max_defl : ℚ,
      fitnessScore mass max_stress max_defl =
        mass +
        (if yield_stress < max_stress then mass * 10 * (max_stress / yield_stress - 1)
          else 0) +
        (if max_deflection < max_defl then mass * 10 * (max_defl / max_deflection - 1)
          else 0)) ∧
    ∀ mass max_defl : ℚ, max_defl ≤ max_deflection →
      fitnessScore mass (11 / 10 * yield_stress) max_defl = 2 * mass := by
  constructor
  · intro m s d
    unfold fitnessScore
    split_ifs <;> ring
  · intro m d hd
    unfold fitnessScore
    dsimp only
    rw [if_neg (not_lt.mpr hd), if_pos (by norm_num [yield_stress] :
      yield_stress < 11 / 10 * yield_stress)]
    rw [show (11 / 10 * yield_stress) / yield_stress = 11 / 10 by
      norm_num [yield_stress]]
    ring

/-- C3, witness: the scenario instance at mass 5 and zero deflection. -/
theorem fitness_penalty_formula_witness :
    fitnessScore 5 (11 / 10 * yield_stress) 0 = 2 * 5 :=
  fitness_penalty_formula.2 5 0 (by norm_num [max_deflection])

/-- C4: every record of a successfully evaluated population with positive
mass has fitness at least its mass, with equality exactly when both the
stress and the deflection constraints are satisfied. -/
theorem fitness_lower_bound (analyze : Analyzer) (pop : List Frame)
    (recs : List Record) (heval : evalPopulation analyze pop = .ok recs)
    (r : Record) (hr : r ∈ recs) (hm : 0 < r.mass) :
    r.mass ≤ r.fitness ∧
    (r.fitness = r.mass ↔ r.max_stress ≤ yield_stress ∧ r.max_defl ≤ max_deflection) := by
  have hfit := (evalPopulation_mem analyze pop recs heval r hr).1
  have hf := (evalFrame_ok analyze r.frame r hfit).2.1
  rw [hf]
  exact fitnessScore_lower r.mass r.max_stress r.max_defl hm

/-- C4, witness: the theorem applied to the concretely evaluated record. -/
theorem fitness_lower_bound_witness :
    cexRec.mass ≤ cexRec.fitness ∧
    (cexRec.fitness = cexRec.mass ↔
      cexRec.max_stress ≤ yield_stress ∧ cexRec.max_defl ≤ max_deflection) :=
  fitness_lower_bound okAnalyzer [cexFrame] [cexRec] cex_eval_single cexRec
    (List.mem_singleton.mpr rfl) (by norm_num [cexRec])

/-- C5: random sampling respects the declared bounds (for draws in
`[0,1)`), mutation maps in-bounds frames to in-bounds frames for any rate
and any draws, and hence every crossover child of two in-bounds parents is
in bounds after its `mutate(0.1)` call. -/
theorem ga_domain_closure :
    (∀ r : InitRand, 0 ≤ r.xw → r.xw < 1 → 0 ≤ r.xh → r.xh < 1 → 0 ≤ r.xl → r.xl < 1 →
      0 ≤ r.xr → r.xr < 1 → 0 ≤ r.xb → r.xb < 1 → (Frame.random_frame r).inBounds) ∧
    (∀ (f : Frame) (rate : ℚ) (m : MutRand), f.inBounds → (f.mutate rate m).inBounds) ∧
    (∀ (p1 p2 : Frame) (c : ChildRand), p1.inBounds → p2.inBounds →
      (crossoverChild p1 p2 c).inBounds) :=
  ⟨fun r hw0 hw1 hh0 hh1 hl0 hl1 hr0 hr1 hb0 hb1 =>
      Frame.random_frame_inBounds r hw0 hw1 hh0 hh1 hl0 hl1 hr0 hr1 hb0 hb1,
    fun f rate m hf => Frame.mutate_inBounds f rate m hf,
    fun p1 p2 c h1 h2 => crossoverChild_inBounds p1 p2 c h1 h2⟩

/-- C5, witness: the closure properties applied at the all-zero draw and
at the concrete lower-bound parents. -/
theorem ga_domain_closure_witness :
    (Frame.random_frame ⟨0, 0, 0, 0, 0⟩).inBounds ∧
    (crossoverChild cexFrame cexFrame (cexGR 0 0)).inBounds :=
  ⟨ga_domain_closure.1 ⟨0, 0, 0, 0, 0⟩ (by norm_num) (by norm_num) (by norm_num)
      (by norm_num) (by norm_num) (by norm_num) (by norm_num) (by norm_num)
      (by norm_num) (by norm_num),
    ga_domain_closure.2.2 cexFrame cexFrame (cexGR 0 0) cexFrame_inBounds cexFrame_inBounds⟩

/-- C6: `calc_mass` is `(area_left * L + area_right * L + area_base *
width) * density` with `L = sqrt((width/2)^2 + height^2)`, and at width 2,
height 2, all areas `1e-3` it equals `(2 * sqrt 5 + 2) * 1e-3 * 7850`. -/
theorem calc_mass_formula :
    (∀ f : Frame, f.calc_mass =
      ((f.area_left : ℝ) * Real.sqrt (((f.width : ℝ) / 2) ^ 2 + (f.height : ℝ) ^ 2) +
        (f.area_right : ℝ) * Real.sqrt (((f.width : ℝ) / 2) ^ 2 + (f.height : ℝ) ^ 2) +
        (f.area_base : ℝ) * (f.width : ℝ)) * (density : ℝ)) ∧
    (Frame.make 2 2 (1 / 1000) (1 / 1000) (1 / 1000)).calc_mass =
      (2 * Real.sqrt 5 + 2) * (1 / 1000) * 7850 := by
  constructor
  · intro f
    rfl
  · simp only [Frame.calc_mass, Frame.make, density]
    push_cast
    rw [show ((2 : ℝ) / 2) ^ 2 + (2 : ℝ) ^ 2 = 5 by norm_num]
    ring

/-- C7: granted that fitness evaluation is a function of the frame (the
analyzer is modelled as a function, hence deterministic), the best fitness
of the next generation is at most the best fitness of the current one,
because the ranked head is carried over unchanged as an elite; the other
two conjuncts certify that `bestFitness` really is the generation minimum. -/
theorem elitism_monotone (analyze : Analyzer) (ps : ℕ) (cr : ℕ → ChildRand)
    (st st' : GAState) (recs recs' : List Record) (b b' : ℚ)
    (hstep : stepGen analyze ps cr st = .ok st')
    (heval : evalPopulation analyze st.population = .ok recs)
    (heval' : evalPopulation analyze st'.population = .ok recs')
    (hb : bestFitness recs = some b) (hb' : bestFitness recs' = some b') :
    b' ≤ b ∧ (∀ r ∈ recs, b ≤ r.fitness) ∧ (∀ r ∈ recs', b' ≤ r.fitness) := by
  obtain ⟨recs0, r0, r1, tl, children, he0, hs0, hmk, hst⟩ :=
    stepGen_ok_inv analyze ps cr st st' hstep
  rw [heval] at he0
  cases he0
  have hb0 : b = r0.fitness := by
    have hbe := bestFitness_eq recs r0 (r1 :: tl) hs0
    rw [hb] at hbe
    exact Option.some.inj hbe
  subst hst
  have hhead : ∃ rec0 rest, evalFrame analyze r0.frame = .ok rec0 ∧ recs' = rec0 :: rest := by
    unfold evalPopulation at heval'
    cases hef : evalFrame analyze r0.frame with
    | error e =>
      simp only [hef] at heval'
      exact Except.noConfusion heval'
    | ok rec0 =>
      simp only [hef] at heval'
      cases hrest : evalPopulation analyze (r1.frame :: children) with
      | error e =>
        simp only [hrest] at heval'
        exact Except.noConfusion heval'
      | ok rest =>
        simp only [hrest] at heval'
        cases heval'
        exact ⟨rec0, rest, rfl, rfl⟩
  obtain ⟨rec0, rest, hef, hre⟩ := hhead
  have hr0recs : r0 ∈ recs := by
    have hmem : r0 ∈ sortRecords recs := by
      rw [hs0]
      exact List.mem_cons_self _ _
    exact (sortRecords_perm recs).mem_iff.mp hmem
  have hr0ev := (evalPopulation_mem analyze st.population recs heval r0 hr0recs).1
  rw [hr0ev] at hef
  cases hef
  subst hre
  have hr0recs' : r0 ∈ r0 :: rest := List.mem_cons_self _ _
  cases hs' : sortRecords (r0 :: rest) with
  | nil =>
    rw [bestFitness, hs'] at hb'
    exact Option.noConfusion hb'
  | cons q0 qtl =>
    have hb'0 : b' = q0.fitness := by
      have hbe := bestFitness_eq (r0 :: rest) q0 qtl hs'
      rw [hb'] at hbe
      exact Option.some.inj hbe
    refine ⟨?_, ?_, ?_⟩
    · rw [hb'0, hb0]
      exact sortRecords_head_min (r0 :: rest) q0 qtl hs' r0 hr0recs'
    · rw [hb0]
      exact sortRecords_head_min recs r0 (r1 :: tl) hs0
    · rw [hb'0]
      exact sortRecords_head_min (r0 :: rest) q0 qtl hs'

/-- C7, witness: the monotonicity theorem applied to the concrete
one-step run (both generation optima equal 1). -/
theorem elitism_monotone_witness :
    (1 : ℚ) ≤ 1 ∧ (∀ r ∈ [cexRec, cexRec], (1 : ℚ) ≤ r.fitness) ∧
      ∀ r ∈ [cexRec, cexRec], (1 : ℚ) ≤ r.fitness :=
  elitism_monotone okAnalyzer 2 (cexGR 0) ⟨[cexFrame, cexFrame], none⟩
    ⟨[cexFrame, cexFrame], some (1, cexFrame)⟩ [cexRec, cexRec] [cexRec, cexRec] 1 1
    cex_step cex_eval cex_eval cex_best cex_best

/-- C8: the initial population has exactly `pop_size` members, a
successful generation step returns a population of exactly `pop_size`
members (for `pop_size ≥ 2`), and the first two slots of the new
population are the two top-ranked frames of the previous generation,
both members of the previous population, carried over unchanged. -/
theorem population_invariants (analyze : Analyzer) (ps : ℕ) (cr : ℕ → ChildRand)
    (ir : ℕ → InitRand) (st st' : GAState) (hps : 2 ≤ ps)
    (hstep : stepGen analyze ps cr st = .ok st') :
    (init_population ir ps).length = ps ∧
    st'.population.length = ps ∧
    ∃ recs r0 r1 tl,
      evalPopulation analyze st.population = .ok recs ∧
      sortRecords recs = r0 :: r1 :: tl ∧
      st'.population.take 2 = [r0.frame, r1.frame] ∧
      r0.frame ∈ st.population ∧ r1.frame ∈ st.population := by
  obtain ⟨recs, r0, r1, tl, children, he, hs, hmk, hst⟩ :=
    stepGen_ok_inv analyze ps cr st st' hstep
  have hclen := makeChildren_length _ cr (ps - 2) children hmk
  have hr0recs : r0 ∈ recs := by
    have hmem : r0 ∈ sortRecords recs := by
      rw [hs]
      exact List.mem_cons_self _ _
    exact (sortRecords_perm recs).mem_iff.mp hmem
  have hr1recs : r1 ∈ recs := by
    have hmem : r1 ∈ sortRecords recs := by
      rw [hs]
      exact List.mem_cons_of_mem _ (List.mem_cons_self _ _)
    exact (sortRecords_perm recs).mem_iff.mp hmem
  subst hst
  refine ⟨init_population_length ir ps, ?_, recs, r0, r1, tl, he, hs, rfl, ?_, ?_⟩
  · show (r0.frame :: r1.frame :: children).length = ps
    simp only [List.length_cons, hclen]
    omega
  · exact (evalPopulation_mem analyze st.population recs he r0 hr0recs).2
  · exact (evalPopulation_mem analyze st.population recs he r1 hr1recs).2

/-- C8, witness: the invariants at the concrete `pop_size = 2` step. -/
theorem population_invariants_witness :
    (init_population cexIR 2).length = 2 ∧
    (GAState.mk [cexFrame, cexFrame] (some (1, cexFrame))).population.length = 2 ∧
    ∃ recs r0 r1 tl,
      evalPopulation okAnalyzer
        (GAState.mk [cexFrame, cexFrame] none).population = .ok recs ∧
      sortRecords recs = r0 :: r1 :: tl ∧
      (GAState.mk [cexFrame, cexFrame]
        (some ((1 : ℚ), cexFrame))).population.take 2 = [r0.frame, r1.frame] ∧
      r0.frame ∈ (GAState.mk [cexFrame, cexFrame] none).population ∧
      r1.frame ∈ (GAState.mk [cexFrame, cexFrame] none).population :=
  population_invariants okAnalyzer 2 (cexGR 0) cexIR ⟨[cexFrame, cexFrame], none⟩
    ⟨[cexFrame, cexFrame], some (1, cexFrame)⟩ (by norm_num) cex_step

/-- C9, counterexample: `optimize_frame` called with `pop_size = 2 < 3`
is not rejected at setup: the concrete run completes normally and returns
a best frame, refuting the claim that such configuration errors are
surfaced immediately to the caller as an error. -/
theorem no_setup_validation_cex :
    optimize_frame okAnalyzer cexIR cexGR 2 1 = .ok (some cexFrame) := cex_opt_ok

/-- C9 (amended): `optimize_frame` performs no configuration validation at
setup: with zero generations any `pop_size` (even 0 or 1) returns normally
with no best frame; a population of fewer than two individuals makes the
generation step fail only once it executes (the IndexError of the elitism
access, not a setup check); and `pop_size = 2` silently degrades - each
generation rebuilds the population from the two elites alone, producing no
offspring. -/
theorem no_config_validation :
    (∀ (analyze : Analyzer) (ir : ℕ → InitRand) (gr : ℕ → ℕ → ChildRand) (ps : ℕ),
      optimize_frame analyze ir gr ps 0 = .ok none) ∧
    (∀ (analyze : Analyzer) (ps : ℕ) (cr : ℕ → ChildRand) (st : GAState),
      st.population.length < 2 → stepGen analyze ps cr st = .error ()) ∧
    (∀ (analyze : Analyzer) (cr : ℕ → ChildRand) (st st' : GAState),
      stepGen analyze 2 cr st = .ok st' →
      ∃ r0 r1 : Record, st'.population = [r0.frame, r1.frame]) := by
  refine ⟨?_, ?_, ?_⟩
  · intro analyze ir gr ps
    rfl
  · intro analyze ps cr st hlen
    unfold stepGen
    cases he : evalPopulation analyze st.population with
    | error e =>
      cases e
      rfl
    | ok recs =>
      have hl : recs.length < 2 := by
        rw [evalPopulation_length analyze _ recs he]
        exact hlen
      cases hs : sortRecords recs with
      | nil =>
        dsimp only
        rw [hs]
      | cons a rest =>
        cases rest with
        | nil =>
          dsimp only
          rw [hs]
        | cons bb rest2 =>
          exfalso
          have h2 := sortRecords_length recs
          rw [hs] at h2
          simp only [List.length_cons] at h2
          omega
  · intro analyze cr st st' hstep
    obtain ⟨recs, r0, r1, tl, children, he, hs, hmk, hst⟩ :=
      stepGen_ok_inv analyze 2 cr st st' hstep
    have hclen := makeChildren_length _ cr (2 - 2) children hmk
    have hnil : children = [] := List.length_eq_zero.mp hclen
    subst hnil
    exact ⟨r0, r1, by rw [hst]⟩

/-- C9, witness: the mid-generation failure on an undersized population,
via the amended theorem. -/
theorem no_config_validation_witness :
    stepGen okAnalyzer 5 (cexGR 0) ⟨[cexFrame], none⟩ = .error () :=
  no_config_validation.2.1 okAnalyzer 5 (cexGR 0) ⟨[cexFrame], none⟩ (by norm_num)

/-- C10: the Frame constructor validates nothing: for arbitrary rational
inputs (including out-of-bounds, zero or negative values) it stores
exactly the given five values and derives the node coordinates
`(0,0,0)`, `(width,0,0)`, `(width/2, height, 0)`; in particular a
concrete out-of-bounds frame is constructed verbatim, so the bounds
invariant is not established at construction. -/
theorem frame_init_no_validation :
    (∀ width height area_left area_right area_base : ℚ,
      (Frame.make width height area_left area_right area_base).width = width ∧
      (Frame.make width height area_left area_right area_base).height = height ∧
      (Frame.make width height area_left area_right area_base).area_left = area_left ∧
      (Frame.make width height area_left area_right area_base).area_right = area_right ∧
      (Frame.make width height area_left area_right area_base).area_base = area_base ∧
      (Frame.make width height area_left area_right area_base).nodes =
        ⟨(0, 0, 0), (width, 0, 0), (width / 2, height, 0)⟩) ∧
    (Frame.make (-5) 20 0 (-1) 2).width = -5 ∧
    ¬ (Frame.make (-5) 20 0 (-1) 2).inBounds := by
  refine ⟨fun w h al ar ab => ⟨rfl, rfl, rfl, rfl, rfl, rfl⟩, rfl, ?_⟩
  norm_num [Frame.make, Frame.inBounds, Frame.MIN_WIDTH, Frame.MAX_WIDTH]

end TubeFrame
